import Mathlib

/-!
Verification of the archive coverage analysis engine of the vk-api-stats
repository (src/services/stats.py, function `analyze_archive`).

Modelling conventions of the shallow embedding:

* Epoch timestamps and durations (Python floats holding epoch seconds) are
  modelled as rationals `ℚ`; machine-float representation issues do not enter
  any of the verified properties, which are formula-level.
* Python's `time.localtime` / `time.strftime("%Y-%m-%d", ...)` /
  `time.mktime(time.strptime(...))` round-trip is modelled for a fixed-offset
  time zone (`tz` seconds east of UTC, no DST): the calendar date of an epoch
  second `t` is the integer day index `⌊(t + tz) / 86400⌋`, and local midnight
  of a day index `d` is the epoch second `d * 86400 - tz`.  A date string
  "YYYY-MM-DD" is represented by its day index; lexicographic order on the
  zero-padded date strings agrees with numeric order on day indices.
* Python's `round(x, n)` is modelled exactly over `ℚ` with round-half-to-even
  tie-breaking (`round_half_even`); no verified property depends on a tie.
* Python's `sorted(fragments, key=lambda f: f["since"])` is a stable sort by
  `since`; it is modelled by `List.insertionSort` with the non-strict key
  order, which is extensionally equal to any stable sort by the same key.
* The `defaultdict` day-bucketing loops of the source append, for each day
  key, exactly the fragments (resp. detected gaps) of that day in iteration
  order over the sorted fragment list; the per-day lists are therefore
  embedded as order-preserving filters of the sorted list, and
  `sorted(daily_data.keys())` as a sort of the deduplicated key list.
-/

namespace VkStats

/-- One recording fragment `{since, till}` (src/services/stats.py, input of
`analyze_archive`): a half-open interval of epoch seconds. -/
structure Fragment where
  since : ℚ
  till  : ℚ
deriving DecidableEq, Inhabited

/-- Key order used by `sorted(fragments, key=lambda f: f["since"])`. -/
def fragLE (a b : Fragment) : Prop := a.since ≤ b.since

instance : DecidableRel fragLE := fun a b => inferInstanceAs (Decidable (a.since ≤ b.since))

instance : IsTotal Fragment fragLE := ⟨fun a b => le_total a.since b.since⟩

instance : IsTrans Fragment fragLE := ⟨fun _ _ _ h1 h2 => le_trans h1 h2⟩

/-- Line 76: `sorted_frags = sorted(fragments, key=lambda f: f["since"])`.
Stable sort by `since` (insertion sort is stable, like Python's sort). -/
def sortFrags (l : List Fragment) : List Fragment := List.insertionSort fragLE l

/-- Python's `round` to an integer: nearest integer, ties to even. -/
def round_half_even (x : ℚ) : ℤ :=
  let f := ⌊x⌋
  let r := x - (f : ℚ)
  if r < 1/2 then f
  else if 1/2 < r then f + 1
  else if f % 2 = 0 then f else f + 1

/-- Python's `round(x, n)` over `ℚ`. -/
def roundTo (n : ℕ) (x : ℚ) : ℚ := (round_half_even (x * 10 ^ n) : ℚ) / 10 ^ n

/-- Python's `max(l)` for a possibly empty list, with `0` for the empty list:
the source writes `max(gaps) if gaps else 0`. -/
def pymax (l : List ℚ) : ℚ :=
  match l with
  | [] => 0
  | x :: xs => xs.foldl max x

/-- Calendar-date index of epoch second `t` in the fixed-offset zone `tz`:
models `time.strftime("%Y-%m-%d", time.localtime(t))` (line 94). -/
def dayKey (tz : ℤ) (t : ℚ) : ℤ := ⌊(t + (tz : ℚ)) / 86400⌋

/-- Local midnight (epoch seconds) of day index `d`: models
`time.mktime(time.strptime(day_str, "%Y-%m-%d"))` (line 108). -/
def dayStart (tz : ℤ) (d : ℤ) : ℚ := ((d * 86400 - tz : ℤ) : ℚ)

/-- Zero-padded two-digit rendering used by `strftime("%H:%M:%S", ...)`. -/
def pad2 (n : ℤ) : String := if n < 10 then "0" ++ toString n else toString n

/-- Models `time.strftime("%H:%M:%S", time.localtime(t))` (lines 121-122). -/
def hms (tz : ℤ) (t : ℚ) : String :=
  let sod := (⌊t⌋ + tz).emod 86400
  pad2 (sod.ediv 3600) ++ ":" ++ pad2 ((sod.emod 3600).ediv 60) ++ ":" ++ pad2 (sod.emod 60)

/-- Python `int()` truncation toward zero. -/
def pytrunc (q : ℚ) : ℤ := if 0 ≤ q then ⌊q⌋ else ⌈q⌉

/-- Python float `%`: `a - b * ⌊a / b⌋` (sign of the divisor). -/
def pymod (a b : ℚ) : ℚ := a - b * ⌊a / b⌋

/-- Lines 157-169: `format_duration(seconds)`.  In every branch below the
first, the argument of `int(...)` is a nonnegative integer-valued float, so
`int` coincides with the floor already taken by `//`. -/
def format_duration (s : ℚ) : String :=
  if s < 60 then toString (pytrunc s) ++ " сек"
  else if s < 3600 then toString ⌊s / 60⌋ ++ " мин"
  else if s < 86400 then
    toString ⌊s / 3600⌋ ++ " ч " ++ toString ⌊pymod s 3600 / 60⌋ ++ " мин"
  else
    toString ⌊s / 86400⌋ ++ " дн " ++ toString ⌊pymod s 86400 / 3600⌋ ++ " ч"

/-- One visual timeline segment (lines 124-128). -/
structure TimelineSeg where
  left  : ℚ
  width : ℚ
  title : String
deriving DecidableEq, Inhabited

/-- One per-day bucket of the report (lines 132-141).  `date` is the day
index standing for the `"%Y-%m-%d"` string. -/
structure DayBucket where
  date         : ℤ
  fragments    : ℕ
  recorded     : ℚ
  recorded_h   : ℚ
  coverage_pct : ℚ
  gaps_count   : ℕ
  max_gap      : ℚ
  timeline     : List TimelineSeg
deriving DecidableEq, Inhabited

/-- The full report returned by `analyze_archive` (lines 62-74 / 143-154). -/
structure ArchiveReport where
  total_fragments : ℕ
  depth_days      : ℚ
  total_recorded  : ℚ
  total_span      : ℚ
  coverage_pct    : ℚ
  avg_fragment    : ℚ
  gaps_count      : ℕ
  max_gap         : ℚ
  total_gap_time  : ℚ
  daily           : List DayBucket
deriving DecidableEq

/-- Lines 83-87: the gap list built by
`for i in range(1, len(sorted_frags)): gap = s[i].since - s[i-1].till;
if gap > 60: gaps.append(gap)`, written as structural recursion over the
adjacent pairs of the (sorted) list. -/
def gapsOf : List Fragment → List ℚ
  | a :: b :: t =>
      (if 60 < b.since - a.till then [b.since - a.till] else []) ++ gapsOf (b :: t)
  | _ => []

/-- Lines 99-103: the same adjacent-pair scan, keeping the gaps attributed to
day `d` — the day of the *second* fragment's `since`.  The `defaultdict`
loop appends each detected gap to exactly the bucket of that day, so bucket
`d`'s gap list is this day-filtered scan. -/
def gapsOnDay (tz : ℤ) (d : ℤ) : List Fragment → List ℚ
  | a :: b :: t =>
      (if 60 < b.since - a.till ∧ dayKey tz b.since = d then [b.since - a.till] else [])
        ++ gapsOnDay tz d (b :: t)
  | _ => []

/-- Lines 93-97: bucket `d`'s `frags_list` — the fragments whose `since`
falls on day `d`, in iteration order over the sorted list (the `defaultdict`
loop appends them in exactly this order). -/
def fragsOnDay (tz : ℤ) (s : List Fragment) (d : ℤ) : List Fragment :=
  s.filter (fun f => dayKey tz f.since == d)

/-- Line 106: `sorted(daily_data.keys())` — the distinct day keys inserted by
the bucketing loops, sorted ascending (string order on `"%Y-%m-%d"` equals
numeric order on day indices). -/
def dayKeysOf (tz : ℤ) (s : List Fragment) : List ℤ :=
  List.insertionSort (· ≤ ·) ((s.map (fun f => dayKey tz f.since)).dedup)

/-- Lines 114-128: the timeline loop of one day bucket. -/
def timelineFor (tz : ℤ) (d : ℤ) (fl : List Fragment) : List TimelineSeg :=
  fl.filterMap (fun f =>
    let seg_start := max f.since (dayStart tz d)
    let seg_end := min f.till (dayStart tz d + 86400)
    if seg_end > seg_start then
      some { left := roundTo 2 ((seg_start - dayStart tz d) / 86400 * 100)
             width := roundTo 2 (max ((seg_end - seg_start) / 86400 * 100) (3/10))
             title := hms tz seg_start ++ " — " ++ hms tz seg_end ++ " ("
                        ++ format_duration (seg_end - seg_start) ++ ")" }
    else none)

/-- Lines 106-141: construction of the bucket for day `d` from the sorted
fragment list `s`. -/
def mkDayBucket (tz : ℤ) (now : ℚ) (s : List Fragment) (d : ℤ) : DayBucket :=
  let fl := fragsOnDay tz s d
  let gs := gapsOnDay tz d s
  let day_span := min (dayStart tz d + 86400) now - dayStart tz d
  let recorded := (fl.map (fun f => f.till - f.since)).sum
  { date := d
    fragments := fl.length
    recorded := recorded
    recorded_h := roundTo 1 (recorded / 3600)
    coverage_pct := roundTo 1 (if 0 < day_span then recorded / day_span * 100 else 0)
    gaps_count := gs.length
    max_gap := pymax gs
    timeline := timelineFor tz d fl }

/-- Lines 62-74: the all-zero report returned for an empty fragment list. -/
def emptyReport : ArchiveReport :=
  { total_fragments := 0
    depth_days := 0
    total_recorded := 0
    total_span := 0
    coverage_pct := 0
    avg_fragment := 0
    gaps_count := 0
    max_gap := 0
    total_gap_time := 0
    daily := [] }

/-- Lines 76-154: the non-empty branch of `analyze_archive`, applied to the
already-sorted list `s`. -/
def analyzeSorted (tz : ℤ) (s : List Fragment) (now : ℚ) : ArchiveReport :=
  let earliest := (s.headD default).since
  let latest := (s.getLastD default).till
  let total_span := latest - earliest
  let total_recorded := (s.map (fun f => f.till - f.since)).sum
  let gaps := gapsOf s
  { total_fragments := s.length
    depth_days := roundTo 1 ((now - earliest) / 86400)
    total_recorded := total_recorded
    total_span := total_span
    coverage_pct := if total_span ≠ 0 then roundTo 1 (total_recorded / total_span * 100) else 0
    avg_fragment := if s = [] then 0 else total_recorded / (s.length : ℚ)
    gaps_count := gaps.length
    max_gap := pymax gaps
    total_gap_time := gaps.sum
    daily := (dayKeysOf tz s).map (mkDayBucket tz now s) }

/-- Lines 61-154: `analyze_archive(fragments, now)` in zone `tz`.  Note the
guard of `coverage_pct` in the source is float truthiness (`if total_span`),
i.e. `total_span ≠ 0`, not `total_span > 0`. -/
def analyzeArchive (tz : ℤ) (fragments : List Fragment) (now : ℚ) : ArchiveReport :=
  if fragments = [] then emptyReport
  else analyzeSorted tz (sortFrags fragments) now

/-- State-passing rendition of `analyze_archive` for the frame property: the
second component is the caller's fragment list as the procedure leaves it.
The only operation the source applies to `fragments` is the built-in
`sorted(fragments, key=...)` (line 76), which by Python semantics reads its
argument and allocates a fresh list, so the state is passed through
unchanged; every later statement reads only the fresh `sorted_frags`. -/
def analyzeArchiveProc (tz : ℤ) (fragments : List Fragment) (now : ℚ) :
    ArchiveReport × List Fragment :=
  if fragments = [] then (emptyReport, fragments)
  else
    let sorted_frags := sortFrags fragments
    (analyzeSorted tz sorted_frags now, fragments)

/-- Specification-side rendition of the gap scan, written from the spec's
words: for every sorted adjacent pair, the gap `cur.since - prev.till` is
recorded iff it exceeds 60 seconds. -/
def adjacentGaps (s : List Fragment) : List ℚ :=
  (s.zip s.tail).filterMap (fun p =>
    if 60 < p.2.since - p.1.till then some (p.2.since - p.1.till) else none)

/-- Specification-side rendition of gap attribution: a recorded gap belongs
to day `d` iff the *second* fragment of its pair starts on day `d`. -/
def adjacentGapsOn (tz : ℤ) (d : ℤ) (s : List Fragment) : List ℚ :=
  (s.zip s.tail).filterMap (fun p =>
    if 60 < p.2.since - p.1.till ∧ dayKey tz p.2.since = d
    then some (p.2.since - p.1.till) else none)

end VkStats

namespace VkStats

/-! ### Projection lemmas for the embedding -/

lemma mkDayBucket_date (tz : ℤ) (now : ℚ) (s : List Fragment) (d : ℤ) :
    (mkDayBucket tz now s d).date = d := rfl

lemma mkDayBucket_fragments (tz : ℤ) (now : ℚ) (s : List Fragment) (d : ℤ) :
    (mkDayBucket tz now s d).fragments = (fragsOnDay tz s d).length := rfl

lemma mkDayBucket_recorded (tz : ℤ) (now : ℚ) (s : List Fragment) (d : ℤ) :
    (mkDayBucket tz now s d).recorded
      = ((fragsOnDay tz s d).map (fun f => f.till - f.since)).sum := rfl

lemma mkDayBucket_coverage (tz : ℤ) (now : ℚ) (s : List Fragment) (d : ℤ) :
    (mkDayBucket tz now s d).coverage_pct
      = roundTo 1 (if 0 < min (dayStart tz d + 86400) now - dayStart tz d
          then ((fragsOnDay tz s d).map (fun f => f.till - f.since)).sum
                 / (min (dayStart tz d + 86400) now - dayStart tz d) * 100
          else 0) := rfl

lemma mkDayBucket_gaps_count (tz : ℤ) (now : ℚ) (s : List Fragment) (d : ℤ) :
    (mkDayBucket tz now s d).gaps_count = (gapsOnDay tz d s).length := rfl

lemma mkDayBucket_max_gap (tz : ℤ) (now : ℚ) (s : List Fragment) (d : ℤ) :
    (mkDayBucket tz now s d).max_gap = pymax (gapsOnDay tz d s) := rfl

lemma mkDayBucket_timeline (tz : ℤ) (now : ℚ) (s : List Fragment) (d : ℤ) :
    (mkDayBucket tz now s d).timeline = timelineFor tz d (fragsOnDay tz s d) := rfl

lemma analyzeSorted_total_fragments (tz : ℤ) (s : List Fragment) (now : ℚ) :
    (analyzeSorted tz s now).total_fragments = s.length := rfl

lemma analyzeSorted_depth_days (tz : ℤ) (s : List Fragment) (now : ℚ) :
    (analyzeSorted tz s now).depth_days
      = roundTo 1 ((now - (s.headD default).since) / 86400) := rfl

lemma analyzeSorted_total_recorded (tz : ℤ) (s : List Fragment) (now : ℚ) :
    (analyzeSorted tz s now).total_recorded
      = (s.map (fun f => f.till - f.since)).sum := rfl

lemma analyzeSorted_total_span (tz : ℤ) (s : List Fragment) (now : ℚ) :
    (analyzeSorted tz s now).total_span
      = (s.getLastD default).till - (s.headD default).since := rfl

lemma analyzeSorted_coverage_pct (tz : ℤ) (s : List Fragment) (now : ℚ) :
    (analyzeSorted tz s now).coverage_pct
      = if (s.getLastD default).till - (s.headD default).since ≠ 0
        then roundTo 1 ((s.map (fun f => f.till - f.since)).sum
               / ((s.getLastD default).till - (s.headD default).since) * 100)
        else 0 := rfl

lemma analyzeSorted_gaps_count (tz : ℤ) (s : List Fragment) (now : ℚ) :
    (analyzeSorted tz s now).gaps_count = (gapsOf s).length := rfl

lemma analyzeSorted_max_gap (tz : ℤ) (s : List Fragment) (now : ℚ) :
    (analyzeSorted tz s now).max_gap = pymax (gapsOf s) := rfl

lemma analyzeSorted_total_gap_time (tz : ℤ) (s : List Fragment) (now : ℚ) :
    (analyzeSorted tz s now).total_gap_time = (gapsOf s).sum := rfl

lemma analyzeSorted_daily (tz : ℤ) (s : List Fragment) (now : ℚ) :
    (analyzeSorted tz s now).daily
      = (dayKeysOf tz s).map (mkDayBucket tz now s) := rfl

lemma analyzeArchive_nil (tz : ℤ) (now : ℚ) : analyzeArchive tz [] now = emptyReport := rfl

lemma analyzeArchive_ne_nil (tz : ℤ) {l : List Fragment} (now : ℚ) (h : l ≠ []) :
    analyzeArchive tz l now = analyzeSorted tz (sortFrags l) now := by
  simp only [analyzeArchive, if_neg h]

/-! ### Sorting facts -/

lemma sortFrags_perm (l : List Fragment) : List.Perm (sortFrags l) l :=
  List.perm_insertionSort _ _

lemma sortFrags_sorted (l : List Fragment) : List.Sorted fragLE (sortFrags l) :=
  List.sorted_insertionSort _ _

lemma sortFrags_length (l : List Fragment) : (sortFrags l).length = l.length :=
  (sortFrags_perm l).length_eq

lemma sortFrags_ne_nil {l : List Fragment} (h : l ≠ []) : sortFrags l ≠ [] := by
  intro hs
  apply h
  have := (sortFrags_perm l).length_eq
  rw [hs] at this
  exact List.eq_nil_of_length_eq_zero this.symm

/-! ### Gap-scan equivalences -/

lemma gapsOf_eq_adjacentGaps (s : List Fragment) : gapsOf s = adjacentGaps s := by
  induction s with
  | nil => rfl
  | cons a t ih =>
    cases t with
    | nil => rfl
    | cons b t2 =>
      by_cases h : 60 < b.since - a.till <;>
        simp [gapsOf, adjacentGaps, List.filterMap_cons, h] <;>
        simpa [adjacentGaps] using ih

lemma gapsOnDay_eq_adjacentGapsOn (tz : ℤ) (d : ℤ) (s : List Fragment) :
    gapsOnDay tz d s = adjacentGapsOn tz d s := by
  induction s with
  | nil => rfl
  | cons a t ih =>
    cases t with
    | nil => rfl
    | cons b t2 =>
      by_cases h : 60 < b.since - a.till ∧ dayKey tz b.since = d <;>
        simp [gapsOnDay, adjacentGapsOn, List.filterMap_cons, h] <;>
        simpa [adjacentGapsOn] using ih

/-! ### Claim C2: gap threshold, count, max and sum -/

/-- C2: a gap is recorded for a sorted adjacent pair iff `cur.since - prev.till`
strictly exceeds 60 seconds (sub-threshold, touching and overlapping pairs
record nothing — `adjacentGaps` is exactly that characterisation);
`gaps_count` is the number of recorded gaps, `max_gap` their maximum (0 when
there are none, per `pymax`), and `total_gap_time` their sum. -/
theorem gap_scan_spec (tz : ℤ) (l : List Fragment) (now : ℚ) :
    (analyzeArchive tz l now).gaps_count = (adjacentGaps (sortFrags l)).length
      ∧ (analyzeArchive tz l now).max_gap = pymax (adjacentGaps (sortFrags l))
      ∧ (analyzeArchive tz l now).total_gap_time = (adjacentGaps (sortFrags l)).sum := by
  by_cases h : l = []
  · subst h
    refine ⟨rfl, rfl, rfl⟩
  · rw [analyzeArchive_ne_nil tz now h]
    rw [analyzeSorted_gaps_count, analyzeSorted_max_gap, analyzeSorted_total_gap_time,
      gapsOf_eq_adjacentGaps]
    simp

/-! ### Claim C3: empty input returns the all-zero report -/

/-- C3: on the empty fragment list `analyze_archive` returns the report with
every numeric field zero and an empty `daily`; the early return (line 62)
skips all further processing, which the embedding renders by producing
`emptyReport` without consulting any of the analysis functions. -/
theorem empty_input_all_zero (tz : ℤ) (now : ℚ) :
    (analyzeArchive tz [] now).total_fragments = 0
      ∧ (analyzeArchive tz [] now).depth_days = 0
      ∧ (analyzeArchive tz [] now).total_recorded = 0
      ∧ (analyzeArchive tz [] now).total_span = 0
      ∧ (analyzeArchive tz [] now).coverage_pct = 0
      ∧ (analyzeArchive tz [] now).avg_fragment = 0
      ∧ (analyzeArchive tz [] now).gaps_count = 0
      ∧ (analyzeArchive tz [] now).max_gap = 0
      ∧ (analyzeArchive tz [] now).total_gap_time = 0
      ∧ (analyzeArchive tz [] now).daily = [] :=
  ⟨rfl, rfl, rfl, rfl, rfl, rfl, rfl, rfl, rfl, rfl⟩

/-! ### Claim C8: totality; malformed fragments flow into the sums -/

/-- C8: `analyze_archive` is total — the embedding is a total computable
function, mirroring that no statement of the source can raise (every division
is guarded, `max(gaps)` is guarded by `if gaps`): it returns a well-formed
report for every input.  Fragments with `till < since` are not rejected or
special-cased: `total_fragments` always counts them all, and
`total_recorded` is the plain sum of the signed durations `till - since`
over the input, so negative durations propagate into it. -/
theorem total_no_validation (tz : ℤ) (l : List Fragment) (now : ℚ) :
    (analyzeArchive tz l now).total_fragments = l.length
      ∧ (analyzeArchive tz l now).total_recorded
          = (l.map (fun f => f.till - f.since)).sum := by
  by_cases h : l = []
  · subst h
    exact ⟨rfl, rfl⟩
  · rw [analyzeArchive_ne_nil tz now h]
    refine ⟨by rw [analyzeSorted_total_fragments, sortFrags_length], ?_⟩
    rw [analyzeSorted_total_recorded]
    exact ((sortFrags_perm l).map _).sum_eq

/-! ### Claim C10: the caller's fragment list is not mutated -/

/-- C10: frame property.  In the state-passing rendition of the procedure,
where the caller's list is threaded through every statement and the built-in
`sorted(fragments, key=...)` of line 76 reads its argument and returns a
fresh list (Python semantics of `sorted`, as opposed to `list.sort`), the
fragment list after the call is the very list passed in — same length, same
elements, same order — and the report computed alongside is exactly
`analyze_archive`'s. -/
theorem no_mutation_of_input (tz : ℤ) (l : List Fragment) (now : ℚ) :
    (analyzeArchiveProc tz l now).2 = l
      ∧ (analyzeArchiveProc tz l now).1 = analyzeArchive tz l now := by
  by_cases h : l = []
  · subst h
    exact ⟨rfl, rfl⟩
  · refine ⟨?_, ?_⟩ <;> simp [analyzeArchiveProc, analyzeArchive, if_neg h]

/-! ### Evaluation helpers for the rounding model -/

lemma round_half_even_of_lt_half (x : ℚ) (f : ℤ) (hf : ⌊x⌋ = f) (h : x - f < 1/2) :
    round_half_even x = f := by
  unfold round_half_even
  rw [hf, if_pos h]

lemma round_half_even_intCast (z : ℤ) : round_half_even ((z : ℚ)) = z := by
  apply round_half_even_of_lt_half _ _ (Int.floor_intCast z)
  norm_num

lemma roundTo_int_eval (n : ℕ) (x : ℚ) (z : ℤ) (h : x * 10 ^ n = (z : ℚ)) :
    roundTo n x = (z : ℚ) / 10 ^ n := by
  rw [roundTo, h, round_half_even_intCast]

lemma roundTo_zero (n : ℕ) : roundTo n 0 = 0 := by
  rw [roundTo_int_eval n 0 0 (by norm_num)]
  norm_num

/-! ### Claim C1: window metrics (corrected guard on `coverage_pct`) -/

/-- C1 (amended): after sorting ascending by `since`, `earliest` is the first
fragment's `since` and `latest` the `till` of the last-*starting* fragment
(`sorted_frags[-1]`, the stable-sort tie-break, not the true maximum `till`);
`total_span = latest - earliest`; `total_recorded` is the plain sum of
`till - since` over all fragments without overlap deduplication;
`coverage_pct = total_recorded / total_span * 100` (reported at the code's
1-decimal rounding) when `total_span ≠ 0` — the source guard is float
truthiness (`if total_span`), **not** `total_span > 0` as the claim stated —
and `0` otherwise; `depth_days = (now - earliest) / 86400` (1-decimal
rounding). -/
theorem window_metrics_spec (tz : ℤ) (l : List Fragment) (now : ℚ) (h : l ≠ []) :
    (analyzeArchive tz l now).total_span
        = ((sortFrags l).getLastD default).till - ((sortFrags l).headD default).since
      ∧ (analyzeArchive tz l now).total_recorded
          = (l.map (fun f => f.till - f.since)).sum
      ∧ (analyzeArchive tz l now).coverage_pct
          = (if ((sortFrags l).getLastD default).till - ((sortFrags l).headD default).since ≠ 0
             then roundTo 1 ((l.map (fun f => f.till - f.since)).sum
                    / (((sortFrags l).getLastD default).till
                        - ((sortFrags l).headD default).since) * 100)
             else 0)
      ∧ (analyzeArchive tz l now).depth_days
          = roundTo 1 ((now - ((sortFrags l).headD default).since) / 86400) := by
  have hsum : ((sortFrags l).map (fun f => f.till - f.since)).sum
      = (l.map (fun f => f.till - f.since)).sum := ((sortFrags_perm l).map _).sum_eq
  rw [analyzeArchive_ne_nil tz now h, analyzeSorted_total_span,
    analyzeSorted_total_recorded, analyzeSorted_coverage_pct, analyzeSorted_depth_days, hsum]
  exact ⟨rfl, rfl, rfl, rfl⟩

/-- C1 counterexample: for the single malformed fragment `{since 100, till 0}`
the span is `-100`, so the claim's guard `total_span > 0` demands
`coverage_pct = 0`, but the code's truthiness guard divides and returns
`100`. -/
theorem coverage_guard_cx :
    (analyzeArchive 0 [⟨100, 0⟩] 0).total_span = -100
      ∧ ¬ (0 : ℚ) < (analyzeArchive 0 [⟨100, 0⟩] 0).total_span
      ∧ (analyzeArchive 0 [⟨100, 0⟩] 0).coverage_pct = 100 := by
  have h : ([⟨100, 0⟩] : List Fragment) ≠ [] := by decide
  rw [analyzeArchive_ne_nil 0 0 h, analyzeSorted_total_span, analyzeSorted_coverage_pct]
  refine ⟨?_, ?_, ?_⟩
  · show (0 : ℚ) - 100 = -100
    norm_num
  · show ¬ (0 : ℚ) < 0 - 100
    norm_num
  · show (if (0 : ℚ) - 100 ≠ 0 then roundTo 1 ((0 - 100 + 0) / ((0 : ℚ) - 100) * 100) else 0)
        = 100
    rw [if_pos (by norm_num : ((0 : ℚ) - 100 ≠ 0))]
    rw [roundTo_int_eval 1 _ 1000 (by norm_num)]
    norm_num

/-- C1 witness: the window-metric equations instantiated at the concrete
input `[{since 0, till 100}]`, `now = 200`. -/
theorem window_metrics_witness :
    (analyzeArchive 0 [⟨0, 100⟩] 200).total_span
        = ((sortFrags [⟨0, 100⟩]).getLastD default).till
            - ((sortFrags [⟨0, 100⟩]).headD default).since
      ∧ (analyzeArchive 0 [⟨0, 100⟩] 200).total_recorded
          = (([⟨0, 100⟩] : List Fragment).map (fun f => f.till - f.since)).sum
      ∧ (analyzeArchive 0 [⟨0, 100⟩] 200).coverage_pct
          = (if ((sortFrags [⟨0, 100⟩]).getLastD default).till
                  - ((sortFrags [⟨0, 100⟩]).headD default).since ≠ 0
             then roundTo 1 ((([⟨0, 100⟩] : List Fragment).map (fun f => f.till - f.since)).sum
                    / (((sortFrags [⟨0, 100⟩]).getLastD default).till
                        - ((sortFrags [⟨0, 100⟩]).headD default).since) * 100)
             else 0)
      ∧ (analyzeArchive 0 [⟨0, 100⟩] 200).depth_days
          = roundTo 1 ((200 - ((sortFrags [⟨0, 100⟩]).headD default).since) / 86400) :=
  window_metrics_spec 0 [⟨0, 100⟩] 200 (by decide)

/-! ### Claim C5: input order (corrected: requires distinct start times) -/

/-- Helper for C5: two permutations of the same fragments with pairwise
distinct `since` values sort to the same list. -/
theorem sort_determined (l l' : List Fragment) (hp : List.Perm l l')
    (hd : (l.map Fragment.since).Nodup) : sortFrags l = sortFrags l' := by
  haveI : IsAntisymm Fragment (fun a b : Fragment => a.since < b.since) :=
    ⟨fun a b h1 h2 => absurd (h1.trans h2) (lt_irrefl _)⟩
  have hne : l.Pairwise (fun a b => a.since ≠ b.since) := List.pairwise_map.mp hd
  have hp1 : List.Perm (sortFrags l) (sortFrags l') :=
    ((sortFrags_perm l).trans hp).trans (sortFrags_perm l').symm
  have hne1 : (sortFrags l).Pairwise (fun a b => a.since ≠ b.since) :=
    (((sortFrags_perm l).pairwise_iff (fun hab => Ne.symm hab)).mpr hne)
  have hne2 : (sortFrags l').Pairwise (fun a b => a.since ≠ b.since) :=
    ((hp1.pairwise_iff (fun hab => Ne.symm hab)).mp hne1)
  have hs1 : (sortFrags l).Pairwise (fun a b : Fragment => a.since < b.since) :=
    ((sortFrags_sorted l).and hne1).imp (fun hab => lt_of_le_of_ne hab.1 hab.2)
  have hs2 : (sortFrags l').Pairwise (fun a b : Fragment => a.since < b.since) :=
    ((sortFrags_sorted l').and hne2).imp (fun hab => lt_of_le_of_ne hab.1 hab.2)
  exact List.eq_of_perm_of_sorted hp1 hs1 hs2

/-- C5 (amended): permuting the input leaves the whole report unchanged
*provided the fragments' `since` values are pairwise distinct*.  Without that
proviso the claim is false: Python's sort is stable, so fragments sharing a
`since` keep their input order and `sorted_frags[-1]["till"]` — hence
`total_span` — depends on the input order (see the counterexample). -/
theorem order_insensitive_thm (tz : ℤ) (now : ℚ) (l l' : List Fragment)
    (hp : List.Perm l l') (hd : (l.map Fragment.since).Nodup) :
    analyzeArchive tz l now = analyzeArchive tz l' now := by
  by_cases hl : l = []
  · subst hl
    have : l' = [] := hp.symm.eq_nil
    subst this
    rfl
  · have hl' : l' ≠ [] := by
      intro hnil
      subst hnil
      exact hl hp.eq_nil
    rw [analyzeArchive_ne_nil tz now hl, analyzeArchive_ne_nil tz now hl',
      sort_determined l l' hp hd]

/-- C5 counterexample: the two orderings of the equal-`since` fragments
`{0,50}` and `{0,100}` are permutations of each other yet give `total_span`
100 vs 50 — the reports differ, refuting the claim for arbitrary
permutations. -/
theorem order_sensitive_cx :
    List.Perm [(⟨0, 50⟩ : Fragment), ⟨0, 100⟩] [⟨0, 100⟩, ⟨0, 50⟩]
      ∧ (analyzeArchive 0 [⟨0, 50⟩, ⟨0, 100⟩] 100).total_span = 100
      ∧ (analyzeArchive 0 [⟨0, 100⟩, ⟨0, 50⟩] 100).total_span = 50
      ∧ analyzeArchive 0 [⟨0, 50⟩, ⟨0, 100⟩] 100 ≠ analyzeArchive 0 [⟨0, 100⟩, ⟨0, 50⟩] 100 := by
  have h1 : ([⟨0, 50⟩, ⟨0, 100⟩] : List Fragment) ≠ [] := by decide
  have h2 : ([⟨0, 100⟩, ⟨0, 50⟩] : List Fragment) ≠ [] := by decide
  have e1 : (analyzeArchive 0 [⟨0, 50⟩, ⟨0, 100⟩] 100).total_span = 100 := by
    rw [analyzeArchive_ne_nil 0 100 h1, analyzeSorted_total_span]
    show (100 : ℚ) - 0 = 100
    norm_num
  have e2 : (analyzeArchive 0 [⟨0, 100⟩, ⟨0, 50⟩] 100).total_span = 50 := by
    rw [analyzeArchive_ne_nil 0 100 h2, analyzeSorted_total_span]
    show (50 : ℚ) - 0 = 50
    norm_num
  refine ⟨by decide, e1, e2, fun he => ?_⟩
  rw [he, e2] at e1
  norm_num at e1

/-- C5 witness: two orderings of distinct-`since` fragments produce the same
report. -/
theorem order_insensitive_witness :
    analyzeArchive 0 [⟨100, 200⟩, ⟨0, 50⟩] 300 = analyzeArchive 0 [⟨0, 50⟩, ⟨100, 200⟩] 300 :=
  order_insensitive_thm 0 300 [⟨100, 200⟩, ⟨0, 50⟩] [⟨0, 50⟩, ⟨100, 200⟩]
    (by decide) (by decide)

/-! ### Claim C4: per-day coverage denominator clamps to now -/

/-- C4: every emitted day bucket's coverage is computed against
`day_span = min(day_start + 86400, now) - day_start` — for the current
partial day the denominator is `now - day_start`, not 86400 — as
`recorded / day_span * 100` (1-decimal rounding) when `day_span > 0`; when
`day_span` is zero or negative (`now < day_start`) no division is attempted
and the bucket reports coverage `0` (the embedding, like the source, is
total there). -/
theorem day_coverage_spec (tz : ℤ) (l : List Fragment) (now : ℚ) (b : DayBucket)
    (hb : b ∈ (analyzeArchive tz l now).daily) :
    b.coverage_pct
      = if 0 < min (dayStart tz b.date + 86400) now - dayStart tz b.date
        then roundTo 1 (b.recorded
               / (min (dayStart tz b.date + 86400) now - dayStart tz b.date) * 100)
        else 0 := by
  by_cases hl : l = []
  · subst hl
    simp [analyzeArchive_nil, emptyReport] at hb
  · rw [analyzeArchive_ne_nil tz now hl, analyzeSorted_daily] at hb
    obtain ⟨d, hd, rfl⟩ := List.mem_map.mp hb
    rw [mkDayBucket_coverage, mkDayBucket_date, mkDayBucket_recorded]
    by_cases hc : 0 < min (dayStart tz d + 86400) now - dayStart tz d
    · rw [if_pos hc, if_pos hc]
    · rw [if_neg hc, if_neg hc, roundTo_zero]

/-- C4 witness: the coverage equation instantiated at the concrete bucket of
day 0 for input `[{since 0, till 100}]` with `now = 200`. -/
theorem day_coverage_witness :
    (mkDayBucket 0 200 (sortFrags [⟨0, 100⟩]) 0).coverage_pct
      = if 0 < min (dayStart 0 (mkDayBucket 0 200 (sortFrags [⟨0, 100⟩]) 0).date + 86400) 200
              - dayStart 0 (mkDayBucket 0 200 (sortFrags [⟨0, 100⟩]) 0).date
        then roundTo 1 ((mkDayBucket 0 200 (sortFrags [⟨0, 100⟩]) 0).recorded
               / (min (dayStart 0 (mkDayBucket 0 200 (sortFrags [⟨0, 100⟩]) 0).date + 86400) 200
                   - dayStart 0 (mkDayBucket 0 200 (sortFrags [⟨0, 100⟩]) 0).date) * 100)
        else 0 := by
  apply day_coverage_spec 0 [⟨0, 100⟩] 200
  rw [analyzeArchive_ne_nil 0 200 (by decide), analyzeSorted_daily]
  have hk : dayKeysOf 0 (sortFrags [⟨0, 100⟩]) = [0] := by
    have hk0 : dayKey 0 (0 : ℚ) = 0 := by norm_num [dayKey]
    show List.insertionSort (· ≤ ·) ([dayKey 0 (0 : ℚ)].dedup) = [0]
    rw [hk0]
    rfl
  rw [hk]
  exact List.mem_singleton.mpr rfl

/-! ### Claim C6: timeline segments -/

lemma floor_le_round_half_even (x : ℚ) : ⌊x⌋ ≤ round_half_even x := by
  simp only [round_half_even]
  split_ifs <;> omega

lemma le_roundTo_of_intCast_le (n : ℕ) (z : ℤ) (x : ℚ) (h : (z : ℚ) ≤ x * 10 ^ n) :
    (z : ℚ) / 10 ^ n ≤ roundTo n x := by
  rw [roundTo]
  have h1 : z ≤ ⌊x * 10 ^ n⌋ := Int.le_floor.mpr h
  have h2 : z ≤ round_half_even (x * 10 ^ n) := le_trans h1 (floor_le_round_half_even _)
  have h3 : (z : ℚ) ≤ (round_half_even (x * 10 ^ n) : ℚ) := by exact_mod_cast h2
  have hp : (0 : ℚ) < 10 ^ n := by positivity
  exact div_le_div_of_nonneg_right h3 hp.le

lemma timelineFor_map_pair (tz : ℤ) (d : ℤ) (fl : List Fragment) :
    (timelineFor tz d fl).map (fun t => (t.left, t.width))
      = fl.filterMap (fun f =>
          if max f.since (dayStart tz d) < min f.till (dayStart tz d + 86400)
          then some (roundTo 2 ((max f.since (dayStart tz d) - dayStart tz d) / 86400 * 100),
                     roundTo 2 (max ((min f.till (dayStart tz d + 86400)
                         - max f.since (dayStart tz d)) / 86400 * 100) (3/10)))
          else none) := by
  rw [timelineFor, List.map_filterMap]
  apply List.filterMap_congr
  intro f _
  by_cases hc : max f.since (dayStart tz d) < min f.till (dayStart tz d + 86400)
  · rw [if_pos hc, if_pos hc]
    rfl
  · rw [if_neg hc, if_neg hc]
    rfl

lemma timelineFor_width_ge (tz : ℤ) (d : ℤ) (fl : List Fragment) (sg : TimelineSeg)
    (hs : sg ∈ timelineFor tz d fl) : 3/10 ≤ sg.width := by
  rw [timelineFor] at hs
  obtain ⟨f, _, hf⟩ := List.mem_filterMap.mp hs
  by_cases hc : min f.till (dayStart tz d + 86400) > max f.since (dayStart tz d)
  · rw [if_pos hc] at hf
    have hw : sg.width = roundTo 2 (max ((min f.till (dayStart tz d + 86400)
        - max f.since (dayStart tz d)) / 86400 * 100) (3/10)) := by
      rw [← Option.some_inj.mp hf]
    rw [hw]
    have h30 : ((30 : ℤ) : ℚ) ≤ (max ((min f.till (dayStart tz d + 86400)
        - max f.since (dayStart tz d)) / 86400 * 100) (3/10)) * 10 ^ 2 := by
      have := le_max_right ((min f.till (dayStart tz d + 86400)
        - max f.since (dayStart tz d)) / 86400 * 100) (3/10)
      push_cast
      nlinarith
    have := le_roundTo_of_intCast_le 2 30 _ h30
    calc (3 : ℚ)/10 = ((30 : ℤ) : ℚ) / 10 ^ 2 := by norm_num
    _ ≤ _ := this
  · rw [if_neg hc] at hf
    exact absurd hf (by simp)

lemma timelineFor_cons (tz : ℤ) (d : ℤ) (f : Fragment) (fl : List Fragment) :
    timelineFor tz d (f :: fl)
      = (if max f.since (dayStart tz d) < min f.till (dayStart tz d + 86400)
         then [{ left := roundTo 2 ((max f.since (dayStart tz d) - dayStart tz d) / 86400 * 100)
                 width := roundTo 2 (max ((min f.till (dayStart tz d + 86400)
                     - max f.since (dayStart tz d)) / 86400 * 100) (3/10))
                 title := hms tz (max f.since (dayStart tz d)) ++ " — "
                            ++ hms tz (min f.till (dayStart tz d + 86400)) ++ " ("
                            ++ format_duration (min f.till (dayStart tz d + 86400)
                                 - max f.since (dayStart tz d)) ++ ")" }]
         else []) ++ timelineFor tz d fl := by
  rw [timelineFor, timelineFor, List.filterMap_cons]
  by_cases hc : max f.since (dayStart tz d) < min f.till (dayStart tz d + 86400)
  · rw [if_pos hc, if_pos hc]
    rfl
  · rw [if_neg hc, if_neg hc]
    rfl

/-- C6: every emitted timeline segment of a day bucket is its fragment's
interval clipped to `[day_start, day_start + 86400)`; clipped-empty or
inverted intervals emit nothing; each emitted segment has
`left = (seg_start - day_start)/86400*100` and
`width = max((seg_end - seg_start)/86400*100, 0.3)` (both at the code's
2-decimal rounding), segments appear in fragment order (the `filterMap`
characterisation), and every emitted segment — including one from a
1-second fragment — has width at least 0.3. -/
theorem timeline_thm (tz : ℤ) (l : List Fragment) (now : ℚ) (b : DayBucket) (sg : TimelineSeg)
    (hb : b ∈ (analyzeArchive tz l now).daily) (hs : sg ∈ b.timeline) :
    b.timeline.map (fun t => (t.left, t.width))
        = (fragsOnDay tz (sortFrags l) b.date).filterMap (fun f =>
            if max f.since (dayStart tz b.date) < min f.till (dayStart tz b.date + 86400)
            then some (roundTo 2 ((max f.since (dayStart tz b.date) - dayStart tz b.date)
                         / 86400 * 100),
                       roundTo 2 (max ((min f.till (dayStart tz b.date + 86400)
                           - max f.since (dayStart tz b.date)) / 86400 * 100) (3/10)))
            else none)
      ∧ 3/10 ≤ sg.width := by
  by_cases hl : l = []
  · subst hl
    simp [analyzeArchive_nil, emptyReport] at hb
  · rw [analyzeArchive_ne_nil tz now hl, analyzeSorted_daily] at hb
    obtain ⟨d, hd, rfl⟩ := List.mem_map.mp hb
    rw [mkDayBucket_date, mkDayBucket_timeline]
    rw [mkDayBucket_timeline] at hs
    exact ⟨timelineFor_map_pair tz d _, timelineFor_width_ge tz d _ sg hs⟩

lemma frags_eval : fragsOnDay 0 (sortFrags [⟨0, 1⟩]) 0 = [⟨0, 1⟩] := by
  have hk0 : dayKey 0 (0 : ℚ) = 0 := by norm_num [dayKey]
  show List.filter (fun f => dayKey 0 f.since == 0) [(⟨0, 1⟩ : Fragment)] = [(⟨0, 1⟩ : Fragment)]
  rw [List.filter_cons]
  simp [hk0]

lemma tl_eval_cond : max ((0 : ℚ)) (dayStart 0 0) < min 1 (dayStart 0 0 + 86400) := by
  have hds : dayStart 0 0 = 0 := by norm_num [dayStart]
  rw [hds]
  norm_num

/-- C6 witness: the timeline characterisation and width bound instantiated
at the 1-second fragment `{since 0, till 1}` on day 0. -/
theorem timeline_witness :
    ((mkDayBucket 0 86400 (sortFrags [⟨0, 1⟩]) 0).timeline.map (fun t => (t.left, t.width))
        = (fragsOnDay 0 (sortFrags [⟨0, 1⟩]) (mkDayBucket 0 86400 (sortFrags [⟨0, 1⟩]) 0).date).filterMap
            (fun f =>
              if max f.since (dayStart 0 (mkDayBucket 0 86400 (sortFrags [⟨0, 1⟩]) 0).date)
                   < min f.till (dayStart 0 (mkDayBucket 0 86400 (sortFrags [⟨0, 1⟩]) 0).date + 86400)
              then some (roundTo 2 ((max f.since (dayStart 0 (mkDayBucket 0 86400 (sortFrags [⟨0, 1⟩]) 0).date)
                             - dayStart 0 (mkDayBucket 0 86400 (sortFrags [⟨0, 1⟩]) 0).date) / 86400 * 100),
                         roundTo 2 (max ((min f.till (dayStart 0 (mkDayBucket 0 86400 (sortFrags [⟨0, 1⟩]) 0).date + 86400)
                             - max f.since (dayStart 0 (mkDayBucket 0 86400 (sortFrags [⟨0, 1⟩]) 0).date)) / 86400 * 100) (3/10)))
              else none))
      ∧ 3/10 ≤ (((mkDayBucket 0 86400 (sortFrags [⟨0, 1⟩]) 0).timeline).headD default).width := by
  have hk : dayKeysOf 0 (sortFrags [⟨0, 1⟩]) = [0] := by
    have hk0 : dayKey 0 (0 : ℚ) = 0 := by norm_num [dayKey]
    show List.insertionSort (· ≤ ·) ([dayKey 0 (0 : ℚ)].dedup) = [0]
    rw [hk0]
    rfl
  have hb : mkDayBucket 0 86400 (sortFrags [⟨0, 1⟩]) 0 ∈ (analyzeArchive 0 [⟨0, 1⟩] 86400).daily := by
    rw [analyzeArchive_ne_nil 0 86400 (by decide), analyzeSorted_daily, hk]
    exact List.mem_singleton.mpr rfl
  have htl : (mkDayBucket 0 86400 (sortFrags [⟨0, 1⟩]) 0).timeline
      = timelineFor 0 0 [⟨0, 1⟩] := by
    rw [mkDayBucket_timeline, frags_eval]
  have hmem : ((mkDayBucket 0 86400 (sortFrags [⟨0, 1⟩]) 0).timeline).headD default
      ∈ (mkDayBucket 0 86400 (sortFrags [⟨0, 1⟩]) 0).timeline := by
    rw [htl, timelineFor_cons, if_pos tl_eval_cond]
    simp [timelineFor]
  exact timeline_thm 0 [⟨0, 1⟩] 86400 _ _ hb hmem

/-! ### Partition machinery shared by the daily-bucketing claims -/

lemma filterMap_if_eq {α β : Type} (c : α → Prop) [DecidablePred c] (v : α → β) (l : List α) :
    l.filterMap (fun a => if c a then some (v a) else none)
      = (l.filter (fun a => decide (c a))).map v := by
  induction l with
  | nil => rfl
  | cons a t ih =>
    by_cases h : c a <;> simp [List.filterMap_cons, List.filter_cons, h, ih]

lemma length_eq_sum_ones {α : Type} (l : List α) :
    l.length = (l.map (fun _ => (1 : ℕ))).sum := by
  induction l with
  | nil => rfl
  | cons a t ih =>
    rw [List.map_cons, List.sum_cons, List.length_cons, ih]
    omega

lemma sum_partition {α M : Type} [AddCommMonoid M] (k : α → ℤ) (g : α → M) :
    ∀ keys : List ℤ, keys.Nodup → ∀ xs : List α, (∀ x ∈ xs, k x ∈ keys) →
      (keys.map (fun d => ((xs.filter (fun x => k x == d)).map g).sum)).sum
        = (xs.map g).sum := by
  intro keys
  induction keys with
  | nil =>
    intro _ xs hcov
    cases xs with
    | nil => rfl
    | cons a t => exact absurd (hcov a (List.mem_cons_self a t)) (List.not_mem_nil _)
  | cons d ds ih =>
    intro hnd xs hcov
    have hd_not : d ∉ ds := (List.nodup_cons.mp hnd).1
    have hnd2 : ds.Nodup := (List.nodup_cons.mp hnd).2
    have hperm := List.filter_append_perm (fun x => k x == d) xs
    have hsum : (xs.map g).sum
        = ((xs.filter (fun x => k x == d)).map g).sum
          + ((xs.filter (fun x => !(k x == d))).map g).sum := by
      rw [← (hperm.map g).sum_eq, List.map_append, List.sum_append]
    rw [List.map_cons, List.sum_cons, hsum]
    congr 1
    have hcov2 : ∀ x ∈ xs.filter (fun x => !(k x == d)), k x ∈ ds := by
      intro x hx
      obtain ⟨hxs, hnotd⟩ := List.mem_filter.mp hx
      rcases List.mem_cons.mp (hcov x hxs) with h | h
      · exfalso
        rw [h] at hnotd
        simp at hnotd
      · exact h
    rw [← ih hnd2 _ hcov2]
    have hmap : ds.map (fun d2 => ((xs.filter (fun x => k x == d2)).map g).sum)
        = ds.map (fun d2 =>
            (((xs.filter (fun x => !(k x == d))).filter (fun x => k x == d2)).map g).sum) := by
      apply List.map_congr_left
      intro d2 hd2
      have hne : d2 ≠ d := fun he => hd_not (he ▸ hd2)
      have hfil : (xs.filter (fun x => !(k x == d))).filter (fun x => k x == d2)
          = xs.filter (fun x => k x == d2) := by
        rw [List.filter_filter]
        apply List.filter_congr
        intro x _
        by_cases h2 : k x = d2
        · simp [h2, hne]
        · simp [h2]
      rw [hfil]
    rw [hmap]

lemma foldr_max_perm {l1 l2 : List ℚ} (h : List.Perm l1 l2) (a : ℚ) :
    l1.foldr max a = l2.foldr max a := by
  induction h with
  | nil => rfl
  | cons x _ ih => simp only [List.foldr_cons, ih]
  | swap x y l => simp only [List.foldr_cons, max_left_comm]
  | trans _ _ ih1 ih2 => rw [ih1, ih2]

lemma zero_le_foldr_max (l : List ℚ) : 0 ≤ l.foldr max 0 := by
  induction l with
  | nil => exact le_refl 0
  | cons x t ih => exact le_trans ih (le_max_right x _)

lemma foldr_max_init (l : List ℚ) (a : ℚ) (h : 0 ≤ a) :
    l.foldr max a = max (l.foldr max 0) a := by
  induction l with
  | nil => simp [max_eq_right h]
  | cons x t ih => rw [List.foldr_cons, List.foldr_cons, ih, max_assoc]

lemma foldl_max_eq (t : List ℚ) : ∀ a : ℚ, 0 ≤ a → t.foldl max a = max a (t.foldr max 0) := by
  induction t with
  | nil =>
    intro a ha
    simp [max_eq_left ha]
  | cons y ys ih =>
    intro a ha
    rw [List.foldl_cons, ih (max a y) (le_trans ha (le_max_left a y)), List.foldr_cons,
      max_assoc]

lemma pymax_eq_foldr (l : List ℚ) (h : ∀ x ∈ l, 0 ≤ x) : pymax l = l.foldr max 0 := by
  cases l with
  | nil => rfl
  | cons x t =>
    show t.foldl max x = (x :: t).foldr max 0
    rw [foldl_max_eq t x (h x (List.mem_cons_self x t)), List.foldr_cons]

lemma max_partition {α : Type} (k : α → ℤ) (g : α → ℚ) :
    ∀ keys : List ℤ, keys.Nodup → ∀ xs : List α, (∀ x ∈ xs, k x ∈ keys) →
      (keys.map (fun d => ((xs.filter (fun x => k x == d)).map g).foldr max 0)).foldr max 0
        = (xs.map g).foldr max 0 := by
  intro keys
  induction keys with
  | nil =>
    intro _ xs hcov
    cases xs with
    | nil => rfl
    | cons a t => exact absurd (hcov a (List.mem_cons_self a t)) (List.not_mem_nil _)
  | cons d ds ih =>
    intro hnd xs hcov
    have hd_not : d ∉ ds := (List.nodup_cons.mp hnd).1
    have hnd2 : ds.Nodup := (List.nodup_cons.mp hnd).2
    have hperm := List.filter_append_perm (fun x => k x == d) xs
    have hsplit : (xs.map g).foldr max 0
        = max (((xs.filter (fun x => k x == d)).map g).foldr max 0)
            (((xs.filter (fun x => !(k x == d))).map g).foldr max 0) := by
      rw [← foldr_max_perm (hperm.map g) 0, List.map_append, List.foldr_append,
        foldr_max_init _ _ (zero_le_foldr_max _)]
    rw [List.map_cons, List.foldr_cons, hsplit]
    congr 1
    have hcov2 : ∀ x ∈ xs.filter (fun x => !(k x == d)), k x ∈ ds := by
      intro x hx
      obtain ⟨hxs, hnotd⟩ := List.mem_filter.mp hx
      rcases List.mem_cons.mp (hcov x hxs) with h | h
      · exfalso
        rw [h] at hnotd
        simp at hnotd
      · exact h
    rw [← ih hnd2 _ hcov2]
    have hmap : ds.map (fun d2 => ((xs.filter (fun x => k x == d2)).map g).foldr max 0)
        = ds.map (fun d2 =>
            (((xs.filter (fun x => !(k x == d))).filter (fun x => k x == d2)).map g).foldr
              max 0) := by
      apply List.map_congr_left
      intro d2 hd2
      have hne : d2 ≠ d := fun he => hd_not (he ▸ hd2)
      have hfil : (xs.filter (fun x => !(k x == d))).filter (fun x => k x == d2)
          = xs.filter (fun x => k x == d2) := by
        rw [List.filter_filter]
        apply List.filter_congr
        intro x _
        by_cases h2 : k x = d2
        · simp [h2, hne]
        · simp [h2]
      rw [hfil]
    rw [hmap]

lemma dayKeys_nodup (tz : ℤ) (s : List Fragment) : (dayKeysOf tz s).Nodup := by
  have hperm : List.Perm (dayKeysOf tz s) ((s.map (fun f => dayKey tz f.since)).dedup) :=
    List.perm_insertionSort _ _
  exact hperm.nodup_iff.mpr (List.nodup_dedup _)

lemma mem_dayKeys_of_mem (tz : ℤ) (s : List Fragment) (f : Fragment) (hf : f ∈ s) :
    dayKey tz f.since ∈ dayKeysOf tz s := by
  have : dayKey tz f.since ∈ (s.map (fun f => dayKey tz f.since)).dedup :=
    List.mem_dedup.mpr (List.mem_map.mpr ⟨f, hf, rfl⟩)
  exact (List.perm_insertionSort _ _).mem_iff.mpr this

lemma dayKeys_sorted_lt (tz : ℤ) (s : List Fragment) :
    (dayKeysOf tz s).Pairwise (· < ·) := by
  have hle : (dayKeysOf tz s).Pairwise (· ≤ ·) := List.sorted_insertionSort _ _
  have hne : (dayKeysOf tz s).Pairwise (· ≠ ·) := dayKeys_nodup tz s
  exact (hle.and hne).imp (fun hab => lt_of_le_of_ne hab.1 hab.2)

lemma adjacentGaps_filter_form (s : List Fragment) :
    adjacentGaps s
      = (((s.zip s.tail).filter (fun p => decide (60 < p.2.since - p.1.till))).map
          (fun p => p.2.since - p.1.till)) := by
  rw [adjacentGaps]
  exact filterMap_if_eq (fun p => 60 < p.2.since - p.1.till) (fun p => p.2.since - p.1.till)
    (s.zip s.tail)

lemma adjacentGapsOn_filter_form (tz : ℤ) (d : ℤ) (s : List Fragment) :
    adjacentGapsOn tz d s
      = ((((s.zip s.tail).filter (fun p => decide (60 < p.2.since - p.1.till))).filter
            (fun p => dayKey tz p.2.since == d)).map (fun p => p.2.since - p.1.till)) := by
  rw [adjacentGapsOn]
  rw [filterMap_if_eq (fun p => 60 < p.2.since - p.1.till ∧ dayKey tz p.2.since = d)
    (fun p => p.2.since - p.1.till) (s.zip s.tail)]
  congr 1
  rw [List.filter_filter]
  apply List.filter_congr
  intro p _
  by_cases h1 : 60 < p.2.since - p.1.till
  · by_cases h2 : dayKey tz p.2.since = d
    · simp [h1, h2]
    · simp [h1, h2]
  · by_cases h2 : dayKey tz p.2.since = d
    · simp [h1, h2]
    · simp [h1, h2]

lemma snd_mem_of_mem_zip_tail {s : List Fragment} {p : Fragment × Fragment}
    (h : p ∈ s.zip s.tail) : p.2 ∈ s := by
  obtain ⟨a, b⟩ := p
  have h2 : b ∈ s.tail := (List.of_mem_zip h).2
  exact List.mem_of_mem_tail h2

/-- C9: for every non-empty input the day buckets are consistent with the
top-level totals: the per-day `fragments` counts sum to `total_fragments`,
the per-day `recorded` values sum to `total_recorded`, the per-day
`gaps_count` values sum to the top-level `gaps_count`, and the maximum over
buckets of the per-day `max_gap` equals the top-level `max_gap` (each
fragment belongs to exactly one day bucket, and each detected gap is
attributed to exactly one day — the day of its second fragment's start). -/
theorem daily_consistency (tz : ℤ) (l : List Fragment) (now : ℚ) (h : l ≠ []) :
    ((analyzeArchive tz l now).daily.map (fun b => b.fragments)).sum
        = (analyzeArchive tz l now).total_fragments
      ∧ ((analyzeArchive tz l now).daily.map (fun b => b.recorded)).sum
          = (analyzeArchive tz l now).total_recorded
      ∧ ((analyzeArchive tz l now).daily.map (fun b => b.gaps_count)).sum
          = (analyzeArchive tz l now).gaps_count
      ∧ pymax ((analyzeArchive tz l now).daily.map (fun b => b.max_gap))
          = (analyzeArchive tz l now).max_gap := by
  rw [analyzeArchive_ne_nil tz now h]
  have hnd := dayKeys_nodup tz (sortFrags l)
  have hcovf : ∀ f ∈ sortFrags l, (fun f : Fragment => dayKey tz f.since) f ∈ dayKeysOf tz (sortFrags l) :=
    fun f hf => mem_dayKeys_of_mem tz (sortFrags l) f hf
  -- the detected-gap pair list
  have hcovp : ∀ p ∈ (((sortFrags l).zip (sortFrags l).tail).filter
        (fun p => decide (60 < p.2.since - p.1.till))),
      (fun p : Fragment × Fragment => dayKey tz p.2.since) p ∈ dayKeysOf tz (sortFrags l) := by
    intro p hp
    have hz : p ∈ (sortFrags l).zip (sortFrags l).tail := (List.mem_filter.mp hp).1
    exact mem_dayKeys_of_mem tz (sortFrags l) p.2 (snd_mem_of_mem_zip_tail hz)
  have hgap_nonneg : ∀ x ∈ ((((sortFrags l).zip (sortFrags l).tail).filter
        (fun p => decide (60 < p.2.since - p.1.till))).map (fun p => p.2.since - p.1.till)),
      0 ≤ x := by
    intro x hx
    obtain ⟨p, hp, rfl⟩ := List.mem_map.mp hx
    have := of_decide_eq_true (List.mem_filter.mp hp).2
    linarith
  refine ⟨?_, ?_, ?_, ?_⟩
  · -- fragment counts
    have h1 : (analyzeSorted tz (sortFrags l) now).daily.map (fun b => b.fragments)
        = (dayKeysOf tz (sortFrags l)).map (fun d =>
            (((sortFrags l).filter (fun f => dayKey tz f.since == d)).map
              (fun _ => (1 : ℕ))).sum) := by
      rw [analyzeSorted_daily, List.map_map]
      apply List.map_congr_left
      intro d _
      show (mkDayBucket tz now (sortFrags l) d).fragments = _
      rw [mkDayBucket_fragments, fragsOnDay, length_eq_sum_ones]
    rw [h1, analyzeSorted_total_fragments,
      sum_partition (fun f : Fragment => dayKey tz f.since) (fun _ => (1 : ℕ))
        (dayKeysOf tz (sortFrags l)) hnd (sortFrags l) hcovf]
    exact (length_eq_sum_ones (sortFrags l)).symm
  · -- recorded seconds
    have h1 : (analyzeSorted tz (sortFrags l) now).daily.map (fun b => b.recorded)
        = (dayKeysOf tz (sortFrags l)).map (fun d =>
            (((sortFrags l).filter (fun f => dayKey tz f.since == d)).map
              (fun f => f.till - f.since)).sum) := by
      rw [analyzeSorted_daily, List.map_map]
      apply List.map_congr_left
      intro d _
      show (mkDayBucket tz now (sortFrags l) d).recorded = _
      rw [mkDayBucket_recorded, fragsOnDay]
    rw [h1, analyzeSorted_total_recorded,
      sum_partition (fun f : Fragment => dayKey tz f.since) (fun f => f.till - f.since)
        (dayKeysOf tz (sortFrags l)) hnd (sortFrags l) hcovf]
  · -- gap counts
    have h1 : (analyzeSorted tz (sortFrags l) now).daily.map (fun b => b.gaps_count)
        = (dayKeysOf tz (sortFrags l)).map (fun d =>
            (((((sortFrags l).zip (sortFrags l).tail).filter
                  (fun p => decide (60 < p.2.since - p.1.till))).filter
                (fun p => dayKey tz p.2.since == d)).map (fun _ => (1 : ℕ))).sum) := by
      rw [analyzeSorted_daily, List.map_map]
      apply List.map_congr_left
      intro d _
      show (mkDayBucket tz now (sortFrags l) d).gaps_count = _
      rw [mkDayBucket_gaps_count, gapsOnDay_eq_adjacentGapsOn, adjacentGapsOn_filter_form,
        List.length_map, length_eq_sum_ones]
    rw [h1, analyzeSorted_gaps_count, gapsOf_eq_adjacentGaps, adjacentGaps_filter_form,
      List.length_map,
      sum_partition (fun p : Fragment × Fragment => dayKey tz p.2.since) (fun _ => (1 : ℕ))
        (dayKeysOf tz (sortFrags l)) hnd _ hcovp]
    exact (length_eq_sum_ones _).symm
  · -- max gap
    have h1 : (analyzeSorted tz (sortFrags l) now).daily.map (fun b => b.max_gap)
        = (dayKeysOf tz (sortFrags l)).map (fun d =>
            (((((sortFrags l).zip (sortFrags l).tail).filter
                  (fun p => decide (60 < p.2.since - p.1.till))).filter
                (fun p => dayKey tz p.2.since == d)).map
              (fun p => p.2.since - p.1.till)).foldr max 0) := by
      rw [analyzeSorted_daily, List.map_map]
      apply List.map_congr_left
      intro d _
      show (mkDayBucket tz now (sortFrags l) d).max_gap = _
      rw [mkDayBucket_max_gap, gapsOnDay_eq_adjacentGapsOn, adjacentGapsOn_filter_form]
      apply pymax_eq_foldr
      intro x hx
      obtain ⟨p, hp, rfl⟩ := List.mem_map.mp hx
      have := of_decide_eq_true (List.mem_filter.mp (List.mem_filter.mp hp).1).2
      linarith
    rw [h1, analyzeSorted_max_gap, gapsOf_eq_adjacentGaps, adjacentGaps_filter_form,
      pymax_eq_foldr _ hgap_nonneg]
    rw [pymax_eq_foldr _ (by
      intro x hx
      obtain ⟨d, hd, rfl⟩ := List.mem_map.mp hx
      exact zero_le_foldr_max _)]
    exact max_partition (fun p : Fragment × Fragment => dayKey tz p.2.since)
      (fun p => p.2.since - p.1.till) (dayKeysOf tz (sortFrags l)) hnd _ hcovp

/-- C9 witness: the four consistency equations instantiated at the two-day
input `[{0,100},{200,400}]` (which contains one detected gap of 100 s). -/
theorem daily_consistency_witness :
    ((analyzeArchive 0 [⟨0, 100⟩, ⟨200, 400⟩] 400).daily.map (fun b => b.fragments)).sum
        = (analyzeArchive 0 [⟨0, 100⟩, ⟨200, 400⟩] 400).total_fragments
      ∧ ((analyzeArchive 0 [⟨0, 100⟩, ⟨200, 400⟩] 400).daily.map (fun b => b.recorded)).sum
          = (analyzeArchive 0 [⟨0, 100⟩, ⟨200, 400⟩] 400).total_recorded
      ∧ ((analyzeArchive 0 [⟨0, 100⟩, ⟨200, 400⟩] 400).daily.map (fun b => b.gaps_count)).sum
          = (analyzeArchive 0 [⟨0, 100⟩, ⟨200, 400⟩] 400).gaps_count
      ∧ pymax ((analyzeArchive 0 [⟨0, 100⟩, ⟨200, 400⟩] 400).daily.map (fun b => b.max_gap))
          = (analyzeArchive 0 [⟨0, 100⟩, ⟨200, 400⟩] 400).max_gap :=
  daily_consistency 0 [⟨0, 100⟩, ⟨200, 400⟩] 400 (by decide)

/-! ### Claim C7: daily bucketing and ordering -/

/-- C7: every fragment is grouped into exactly the bucket of the local
calendar date of its `since` — each bucket's `fragments` count and
`recorded` seconds accumulate precisely the input fragments of its date —
each detected gap is attributed to the bucket of the second (later-starting)
fragment's date, every fragment's date has a bucket, and the daily sequence
is strictly ascending by date (so the bucket for a date is unique). -/
theorem daily_bucketing_spec (tz : ℤ) (l : List Fragment) (now : ℚ) :
    (∀ b ∈ (analyzeArchive tz l now).daily,
        b.fragments = l.countP (fun f => dayKey tz f.since == b.date)
          ∧ b.recorded = ((l.filter (fun f => dayKey tz f.since == b.date)).map
                (fun f => f.till - f.since)).sum
          ∧ b.gaps_count = (adjacentGapsOn tz b.date (sortFrags l)).length)
      ∧ (∀ f ∈ l, ∃ b ∈ (analyzeArchive tz l now).daily, b.date = dayKey tz f.since)
      ∧ ((analyzeArchive tz l now).daily.map (fun b => b.date)).Pairwise (· < ·) := by
  by_cases hl : l = []
  · subst hl
    refine ⟨?_, ?_, ?_⟩ <;> simp [analyzeArchive_nil, emptyReport]
  · rw [analyzeArchive_ne_nil tz now hl]
    refine ⟨?_, ?_, ?_⟩
    · intro b hb
      rw [analyzeSorted_daily] at hb
      obtain ⟨d, hd, rfl⟩ := List.mem_map.mp hb
      refine ⟨?_, ?_, ?_⟩
      · rw [mkDayBucket_fragments, mkDayBucket_date, fragsOnDay,
          List.countP_eq_length_filter]
        exact ((sortFrags_perm l).filter _).length_eq
      · rw [mkDayBucket_recorded, mkDayBucket_date, fragsOnDay]
        exact (((sortFrags_perm l).filter _).map _).sum_eq
      · rw [mkDayBucket_gaps_count, mkDayBucket_date, gapsOnDay_eq_adjacentGapsOn]
    · intro f hf
      have hfs : f ∈ sortFrags l := (sortFrags_perm l).mem_iff.mpr hf
      refine ⟨mkDayBucket tz now (sortFrags l) (dayKey tz f.since), ?_,
        mkDayBucket_date tz now (sortFrags l) (dayKey tz f.since)⟩
      rw [analyzeSorted_daily]
      exact List.mem_map.mpr ⟨dayKey tz f.since,
        mem_dayKeys_of_mem tz (sortFrags l) f hfs, rfl⟩
    · rw [analyzeSorted_daily, List.map_map]
      have hmap : (dayKeysOf tz (sortFrags l)).map
          ((fun b : DayBucket => b.date) ∘ mkDayBucket tz now (sortFrags l))
          = dayKeysOf tz (sortFrags l) := by
        have : ((fun b : DayBucket => b.date) ∘ mkDayBucket tz now (sortFrags l))
            = fun d => d :=
          funext (fun d => mkDayBucket_date tz now (sortFrags l) d)
        rw [this]
        exact List.map_id' _
      rw [hmap]
      exact dayKeys_sorted_lt tz (sortFrags l)

/-- C7 witness: the bucketing equations instantiated at the day-0 bucket of
the input `[{since 0, till 100}]`, plus the existence of the bucket for that
fragment's date. -/
theorem daily_bucketing_witness :
    ((mkDayBucket 0 200 (sortFrags [⟨0, 100⟩]) 0).fragments
        = ([(⟨0, 100⟩ : Fragment)]).countP
            (fun f => dayKey 0 f.since == (mkDayBucket 0 200 (sortFrags [⟨0, 100⟩]) 0).date)
      ∧ (mkDayBucket 0 200 (sortFrags [⟨0, 100⟩]) 0).recorded
          = ((([(⟨0, 100⟩ : Fragment)]).filter
                (fun f => dayKey 0 f.since == (mkDayBucket 0 200 (sortFrags [⟨0, 100⟩]) 0).date)).map
              (fun f => f.till - f.since)).sum
      ∧ (mkDayBucket 0 200 (sortFrags [⟨0, 100⟩]) 0).gaps_count
          = (adjacentGapsOn 0 (mkDayBucket 0 200 (sortFrags [⟨0, 100⟩]) 0).date
              (sortFrags [⟨0, 100⟩])).length)
      ∧ (∃ b ∈ (analyzeArchive 0 [⟨0, 100⟩] 200).daily,
          b.date = dayKey 0 (Fragment.mk 0 100).since) := by
  constructor
  · apply (daily_bucketing_spec 0 [⟨0, 100⟩] 200).1
    rw [analyzeArchive_ne_nil 0 200 (by decide), analyzeSorted_daily]
    have hk : dayKeysOf 0 (sortFrags [⟨0, 100⟩]) = [0] := by
      have hk0 : dayKey 0 (0 : ℚ) = 0 := by norm_num [dayKey]
      show List.insertionSort (· ≤ ·) ([dayKey 0 (0 : ℚ)].dedup) = [0]
      rw [hk0]
      rfl
    rw [hk]
    exact List.mem_singleton.mpr rfl
  · exact (daily_bucketing_spec 0 [⟨0, 100⟩] 200).2.1 _ (List.mem_singleton.mpr rfl)

end VkStats
